import Mathlib

/-!
Verification of the pysph parallel-manager / NNPS core.

Doubles are modelled as exact rationals, C ints as unbounded integers
(except where a cast matters, noted at the definition), and the Cython
classes as Lean structures.  Every definition is transcribed from
src/pysph/base/nnps.pyx or src/pysph/parallel/parallel_manager.pyx unless
its doc comment says it is modelled from the spec (external collaborators
such as the ParticleArray container live outside src/).
-/

set_option maxHeartbeats 1600000

namespace PySPH

/-- Real point; embeds cPoint with double coordinates as exact rationals. -/
structure Pt where
  x : ℚ
  y : ℚ
  z : ℚ
deriving DecidableEq

/-- Integer lattice point; embeds cIntPoint, the key type of the cells dict. -/
structure IntPt where
  x : ℤ
  y : ℤ
  z : ℤ
deriving DecidableEq

/-- Embeds real_to_int (nnps.pyx line 37, parallel_manager.pyx line 33):
the bin index floor(real_val / step) cast to int. -/
def real_to_int (v step : ℚ) : ℤ := ⌊v / step⌋

/-- Embeds find_cell_id (nnps.pyx line 56, parallel_manager.pyx line 52):
cIntPoint(real_to_int(x), real_to_int(y), 0) — the z bin is pinned to 0. -/
def find_cell_id (p : Pt) (cell_size : ℚ) : IntPt :=
  { x := real_to_int p.x cell_size, y := real_to_int p.y cell_size, z := 0 }

/-- Embeds _get_centroid (nnps.pyx line 79): the x and y components are
(cid + 0.5) * cell_size; the z component keeps the 0.0 it was initialized
with (cPoint_new(0,0,0)), it is never assigned. -/
def _get_centroid (cell_size : ℚ) (cid : IntPt) : Pt :=
  { x := ((cid.x : ℚ) + 1/2) * cell_size,
    y := ((cid.y : ℚ) + 1/2) * cell_size,
    z := 0 }

/-- Embeds the Cell extension class (nnps.pyx line 207): spatial index,
per-array local/global index lists, centroid and inflated bounding box. -/
structure Cell where
  cid : IntPt
  cell_size : ℚ
  narrays : ℕ
  lindices : List (List ℕ)
  gindices : List (List ℕ)
  layers : ℤ
  centroid : Pt
  boxmin : Pt
  boxmax : Pt
deriving DecidableEq

/-- Embeds Cell._compute_bounding_box (nnps.pyx line 306): boxmin and
boxmax are centroid minus resp. plus (layers + 0.5) * cell_size in x and y, while both z
components are assigned the literal 0. Returns the (boxmin, boxmax) pair. -/
def _compute_bounding_box (centroid : Pt) (cell_size : ℚ) (layers : ℤ) : Pt × Pt :=
  ({ x := centroid.x - ((layers : ℚ) + 1/2) * cell_size,
     y := centroid.y - ((layers : ℚ) + 1/2) * cell_size,
     z := 0 },
   { x := centroid.x + ((layers : ℚ) + 1/2) * cell_size,
     y := centroid.y + ((layers : ℚ) + 1/2) * cell_size,
     z := 0 })

/-- Embeds Cell.__init__ (nnps.pyx line 215): stores the index and size,
creates narrays empty local/global index lists, computes the centroid and
the bounding box with the given number of layers (default 2 at call sites
that omit it). -/
def mkCell (cid : IntPt) (cell_size : ℚ) (narrays : ℕ) (layers : ℤ) : Cell :=
  let centroid := _get_centroid cell_size cid
  let box := _compute_bounding_box centroid cell_size layers
  { cid := cid,
    cell_size := cell_size,
    narrays := narrays,
    lindices := List.replicate narrays [],
    gindices := List.replicate narrays [],
    layers := layers,
    centroid := centroid,
    boxmin := box.1,
    boxmax := box.2 }

/-- Output channel of a diagnostic message. The degenerate-cell-size
message is produced by a print statement, which writes to stdout. -/
inductive Channel
  | stdout
  | stderr
deriving DecidableEq

/-- Result of a cell-size computation: the size and the channel of the
warning, if one was emitted. -/
structure CellSizeResult where
  size : ℚ
  warning : Option Channel
deriving DecidableEq

/-- Embeds the common tail of NNPS._compute_cell_size (nnps.pyx line 455)
and ParallelManager.compute_cell_size (parallel_manager.pyx line 560):
cell_size = radius_scale * hmax; if cell_size < 1e-6 a warning is printed
(to stdout) and the size is set to 1.0. -/
def compute_cell_size_from_hmax (radius_scale hmax : ℚ) : CellSizeResult :=
  let cell_size := radius_scale * hmax
  if cell_size < 1 / 1000000 then
    { size := 1, warning := some Channel.stdout }
  else
    { size := cell_size, warning := none }

/-- Embeds the NNPSParticleArrayWrapper / ParticleArrayWrapper view of a
particle array: the coordinate, smoothing-length and global-id carrays.
Only the properties the binning and query code reads are kept. -/
structure PArray where
  x : List ℚ
  y : List ℚ
  z : List ℚ
  h : List ℚ
  gid : List ℕ
deriving DecidableEq

instance : Inhabited PArray := ⟨{ x := [], y := [], z := [], h := [], gid := [] }⟩

/-- Unchecked carray element read (arr.data[i]); in-range at every use the
theorems make, out-of-range reads return the default 0. -/
def rd (l : List ℚ) (i : ℕ) : ℚ := l.getD i 0

/-- The point (x[i], y[i], 0.0) that both _bin routines build for row i. -/
def binPoint (pa : PArray) (i : ℕ) : Pt :=
  { x := rd pa.x i, y := rd pa.y i, z := 0 }

/-- The full 3-d point (x[i], y[i], z[i]) used in NNPS distance tests. -/
def fullPoint (pa : PArray) (i : ℕ) : Pt :=
  { x := rd pa.x i, y := rd pa.y i, z := rd pa.z i }

/-- The cells dict, keyed on the IntPoint cell index; modelled as an
association list in insertion order. -/
abbrev CellMap := List (IntPt × Cell)

/-- Dictionary lookup (PyDict_GetItem / cells[cid]): first entry with the
given key. -/
def lookupCell : CellMap → IntPt → Option Cell
  | [], _ => none
  | (k, c) :: rest, q => if k = q then some c else lookupCell rest q

/-- Overwrite the cell stored under a key (the in-place list mutation of
cell.lindices / cell.gindices seen through the dict). -/
def updateCell (cm : CellMap) (k : IntPt) (f : Cell → Cell) : CellMap :=
  cm.map (fun p => if p.1 = k then (p.1, f p.2) else p)

/-- The lindices list of an optional cell for one particle-array slot;
an absent cell contributes nothing. -/
def lindOf (oc : Option Cell) (pa_index : ℕ) : List ℕ :=
  match oc with
  | none => []
  | some c => c.lindices.getD pa_index []

/-- Append row i and global id g to a cell's pa_index-th index lists
(lindices.append(i); gindices.append(gid.data[i]) in
ParallelManager._bin, parallel_manager.pyx lines 804-805). -/
def appendBoth (c : Cell) (pa_index : ℕ) (i g : ℕ) : Cell :=
  { c with
    lindices := c.lindices.set pa_index ((c.lindices.getD pa_index []) ++ [i]),
    gindices := c.gindices.set pa_index ((c.gindices.getD pa_index []) ++ [g]) }

/-- Append row i to a cell's pa_index-th local index list only — in
NNPS._bin (nnps.pyx lines 452-453) the gindices.append is commented out,
so gindices is never touched. -/
def appendLindOnly (c : Cell) (pa_index : ℕ) (i : ℕ) : Cell :=
  { c with
    lindices := c.lindices.set pa_index ((c.lindices.getD pa_index []) ++ [i]) }

/-- One iteration of the particle loop of ParallelManager._bin
(parallel_manager.pyx line 746): compute the cell id of (x[i], y[i], 0),
create the cell with the manager's ghost_layers if absent, then append
the row index and its gid to that cell's lists. -/
def pm_bin_one (narrays : ℕ) (layers : ℤ) (pa_index : ℕ) (pa : PArray)
    (cell_size : ℚ) (cm : CellMap) (i : ℕ) : CellMap :=
  updateCell
    (if (lookupCell cm (find_cell_id (binPoint pa i) cell_size)).isSome then cm
     else cm ++ [(find_cell_id (binPoint pa i) cell_size,
       mkCell (find_cell_id (binPoint pa i) cell_size) cell_size narrays layers)])
    (find_cell_id (binPoint pa i) cell_size)
    (fun c => appendBoth c pa_index i (pa.gid.getD i 0))

/-- Embeds ParallelManager._bin: fold of pm_bin_one over the given row
indices. -/
def pm_bin (narrays : ℕ) (layers : ℤ) (pa_index : ℕ) (pa : PArray)
    (cell_size : ℚ) (cm : CellMap) (indices : List ℕ) : CellMap :=
  indices.foldl (pm_bin_one narrays layers pa_index pa cell_size) cm

/-- One iteration of the particle loop of NNPS._bin (nnps.pyx line 404):
like the manager version but the cell is created with the Cell default
layers = 2 and only lindices receives the row. -/
def nnps_bin_one (narrays : ℕ) (pa_index : ℕ) (pa : PArray)
    (cell_size : ℚ) (cm : CellMap) (i : ℕ) : CellMap :=
  updateCell
    (if (lookupCell cm (find_cell_id (binPoint pa i) cell_size)).isSome then cm
     else cm ++ [(find_cell_id (binPoint pa i) cell_size,
       mkCell (find_cell_id (binPoint pa i) cell_size) cell_size narrays 2)])
    (find_cell_id (binPoint pa i) cell_size)
    (fun c => appendLindOnly c pa_index i)

/-- Embeds NNPS._bin: fold of nnps_bin_one over the given row indices. -/
def nnps_bin (narrays : ℕ) (pa_index : ℕ) (pa : PArray)
    (cell_size : ℚ) (cm : CellMap) (indices : List ℕ) : CellMap :=
  indices.foldl (nnps_bin_one narrays pa_index pa cell_size) cm

/-- Maximum entry of a carray after update_min_max; arrays are nonempty
wherever this is called in the claims. -/
def carrayMax (l : List ℚ) : ℚ := l.foldl max (l.headD 0)

/-- Embeds NNPS._compute_cell_size (nnps.pyx line 455): hmax is the
largest h over all wrapped arrays starting from -1.0, then the shared
clamp of compute_cell_size_from_hmax is applied. -/
def nnps_compute_cell_size (pas : List PArray) (radius_scale : ℚ) : CellSizeResult :=
  let hmax := pas.foldl (fun m pa => max m (carrayMax pa.h)) (-1)
  compute_cell_size_from_hmax radius_scale hmax

/-- Embeds NNPS.update (nnps.pyx line 374): clear the cells dict, compute
the cell size, then bin each particle array over all of its rows.
Returns the computed cell size and the new cell map. -/
def nnps_update (pas : List PArray) (radius_scale : ℚ) : ℚ × CellMap :=
  let cs := (nnps_compute_cell_size pas radius_scale).size
  let cm := (List.range pas.length).foldl
    (fun cm k => nnps_bin pas.length k (pas.getD k default) cs cm
      (List.range (pas.getD k default).x.length)) []
  (cs, cm)

/-- Embeds NNPS.__init__ (nnps.pyx line 333) for the state the claims
observe: the ghost_layers argument is accepted but the body never reads
it, and the constructor ends by calling update. -/
def nnps_new (dim : ℕ) (pas : List PArray) (radius_scale : ℚ)
    (ghost_layers : ℤ) : ℚ × CellMap :=
  nnps_update pas radius_scale

/-- Bounds produced by ParallelManager._compute_bounds. -/
structure Bounds where
  mx : ℚ
  my : ℚ
  mz : ℚ
  Mx : ℚ
  My : ℚ
  Mz : ℚ
  Mh : ℚ
deriving DecidableEq

/-- Local extrema loop of ParallelManager._compute_bounds
(parallel_manager.pyx lines 899-924), starting from low = 1e20 and
high = -1e20 and folding in each nonempty array's min/max. -/
def localBounds (pas : List PArray) : Bounds :=
  pas.foldl
    (fun b pa =>
      if pa.x.length = 0 then b
      else
        { mx := min b.mx (pa.x.foldl min (pa.x.headD 0)),
          my := min b.my (pa.y.foldl min (pa.y.headD 0)),
          mz := min b.mz (pa.z.foldl min (pa.z.headD 0)),
          Mx := max b.Mx (carrayMax pa.x),
          My := max b.My (carrayMax pa.y),
          Mz := max b.Mz (carrayMax pa.z),
          Mh := max b.Mh (carrayMax pa.h) })
    { mx := 1e20, my := 1e20, mz := 1e20,
      Mx := -1e20, My := -1e20, Mz := -1e20, Mh := -1e20 }

/-- Embeds ParallelManager._compute_bounds (parallel_manager.pyx line
889) on a single rank.  The reduce buffers _minx ... _maxh are local
variables assigned only inside the `if self.in_parallel` branch, yet the
final assignments `self.mx = _minx[0]` etc. (lines 951-953) read them
unconditionally; when in_parallel is false the read of the unassigned
local raises UnboundLocalError, modelled as none.  In parallel the
Allreduce of a communicator is outside a single-rank model, but the
claims only exercise the serial path. -/
def pm_compute_bounds (in_parallel : Bool) (pas : List PArray) : Option Bounds :=
  if in_parallel then some (localBounds pas) else none

/-- Embeds ParallelManager.compute_cell_size (parallel_manager.pyx line
560): _compute_bounds, then the radius_scale * Mh clamp; propagates the
serial-path error of pm_compute_bounds. -/
def pm_compute_cell_size (in_parallel : Bool) (pas : List PArray)
    (radius_scale : ℚ) : Option CellSizeResult :=
  (pm_compute_bounds in_parallel pas).map
    (fun b => compute_cell_size_from_hmax radius_scale b.Mh)

/-- Exact embedding of the comparison cPoint_distance(p, q) < r: the
distance is the square root of the squared distance, so it is below r iff
r is positive and the squared distance is below r * r. -/
def distLt (p q : Pt) (r : ℚ) : Bool :=
  decide (0 < r) && decide ((p.x - q.x) * (p.x - q.x) + (p.y - q.y) * (p.y - q.y)
    + (p.z - q.z) * (p.z - q.z) < r * r)

/-- The nine cell ids the neighbor loop visits: ix runs over
cid.x - 1, cid.x, cid.x + 1 (outer) and iy over the same around cid.y
(inner); the z component of the probe IntPoint stays 0. -/
def neighborOffsets (cid : IntPt) : List IntPt :=
  [{ x := cid.x - 1, y := cid.y - 1, z := 0 },
   { x := cid.x - 1, y := cid.y,     z := 0 },
   { x := cid.x - 1, y := cid.y + 1, z := 0 },
   { x := cid.x,     y := cid.y - 1, z := 0 },
   { x := cid.x,     y := cid.y,     z := 0 },
   { x := cid.x,     y := cid.y + 1, z := 0 },
   { x := cid.x + 1, y := cid.y - 1, z := 0 },
   { x := cid.x + 1, y := cid.y,     z := 0 },
   { x := cid.x + 1, y := cid.y + 1, z := 0 }]

/-- The distance test of NNPS.get_nearest_particles for source row j
against the query point xi: xij < hi or xij < hj with
hj = radius_scale * s_h[j]. -/
def nbrTest (src : PArray) (radius_scale : ℚ) (xi : Pt) (hi : ℚ) (j : ℕ) : Bool :=
  distLt xi (fullPoint src j) hi || distLt xi (fullPoint src j) (radius_scale * rd src.h j)

/-- Contribution of one visited cell id to the neighbor output: nothing
when the cell is absent from the dict, otherwise the rows of its
lindices[src_index] that pass the distance test, in list order. -/
def cellContrib (cm : CellMap) (src_index : ℕ) (src : PArray)
    (radius_scale : ℚ) (xi : Pt) (hi : ℚ) (cellid : IntPt) : List ℕ :=
  match lookupCell cm cellid with
  | none => []
  | some cell => (cell.lindices.getD src_index []).filter
      (nbrTest src radius_scale xi hi)

/-- Embeds NNPS.get_nearest_particles (nnps.pyx line 491): xi is the full
3-d destination point, hi = radius_scale * d_h[d_idx]; the nine cells
around find_cell_id(xi) are visited in loop order and every row of a
present cell's lindices[src_index] passing the distance test is appended
to the output.  The UIntArray growth by 50 only resizes the buffer; the
returned list is the contents written. -/
def get_nearest_particles (pas : List PArray) (src_index dst_index : ℕ)
    (radius_scale cell_size : ℚ) (cm : CellMap) (d_idx : ℕ) : List ℕ :=
  (neighborOffsets (find_cell_id (fullPoint (pas.getD dst_index default) d_idx) cell_size)).flatMap
    (cellContrib cm src_index (pas.getD src_index default) radius_scale
      (fullPoint (pas.getD dst_index default) d_idx)
      (radius_scale * rd (pas.getD dst_index default).h d_idx))

/-- The distance test of ParallelManager.get_nearest_particles for
source row j: identical to nbrTest except that xj is built with z = 0
(parallel_manager.pyx line 1024), so the distance is planar. -/
def pm_nbrTest (src : PArray) (radius_scale : ℚ) (xi : Pt) (hi : ℚ) (j : ℕ) : Bool :=
  distLt xi (binPoint src j) hi || distLt xi (binPoint src j) (radius_scale * rd src.h j)

/-- Per-cell contribution of the ParallelManager query: as cellContrib
but with the planar distance test. -/
def pm_cellContrib (cm : CellMap) (src_index : ℕ) (src : PArray)
    (radius_scale : ℚ) (xi : Pt) (hi : ℚ) (cellid : IntPt) : List ℕ :=
  match lookupCell cm cellid with
  | none => []
  | some cell => (cell.lindices.getD src_index []).filter
      (pm_nbrTest src radius_scale xi hi)

/-- Embeds ParallelManager.get_nearest_particles (parallel_manager.pyx
line 958): the same 3x3 visit and scaled cutoffs as the NNPS version, but
xi and xj are built with z = 0 (lines 1000 and 1024), so the distance
compared against hi and hj is the planar one. -/
def pm_get_nearest_particles (pas : List PArray) (src_index dst_index : ℕ)
    (radius_scale cell_size : ℚ) (cm : CellMap) (i : ℕ) : List ℕ :=
  (neighborOffsets (find_cell_id (binPoint (pas.getD dst_index default) i) cell_size)).flatMap
    (pm_cellContrib cm src_index (pas.getD src_index default) radius_scale
      (binPoint (pas.getD dst_index default) i)
      (radius_scale * rd (pas.getD dst_index default).h i))

/-- Embeds NNPS.brute_force_neighbors (nnps.pyx line 578): hi is
d_h[d_idx] * radius_scale but hj is s_h[j] with no radius_scale factor;
squared quantities are compared directly; and the loop bound
num_particles is d_x.length, the DESTINATION array length, even though j
indexes the source arrays. -/
def brute_force_neighbors (pas : List PArray) (src_index dst_index : ℕ)
    (radius_scale : ℚ) (d_idx : ℕ) : List ℕ :=
  let src := pas.getD src_index default
  let dst := pas.getD dst_index default
  let xi := rd dst.x d_idx
  let yi := rd dst.y d_idx
  let zi := rd dst.z d_idx
  let hi := rd dst.h d_idx * radius_scale
  (List.range dst.x.length).filter
    (fun j =>
      let xij2 := (xi - rd src.x j) * (xi - rd src.x j)
        + (yi - rd src.y j) * (yi - rd src.y j)
        + (zi - rd src.z j) * (zi - rd src.z j)
      let hj := rd src.h j
      decide (xij2 < hi * hi) || decide (xij2 < hj * hj))

/-- Embeds ParticleArrayExchange.update_particle_gids (parallel_manager.pyx
line 427) on rank r, given the Allgathered per-rank Local counts: the gid
array is resized to counts[r] and entry i becomes sum(counts[0:r]) + i
cast to the unsigned 32-bit ZOLTAN_ID_TYPE. -/
def update_particle_gids (counts : List ℕ) (r : ℕ) : List ℕ :=
  (List.range (counts.getD r 0)).map
    (fun i => ((counts.take r).sum + i) % 2 ^ 32)

/-- Tag constants. Modelled from the spec: utils.ParticleTAGS is not under
src/; section 3 of the spec fixes Local = 0 and lists Local, Remote and
Ghost as the three distinct row classes, which take the successive
values. -/
def LocalTag : ℤ := 0

/-- Remote tag value; distinct from LocalTag (see LocalTag). -/
def RemoteTag : ℤ := 1

/-- One particle row as the exchange protocols see it: its tag property
and the remaining lb_props payload. -/
structure Row where
  tag : ℤ
  gid : ℕ
  payload : List ℚ
deriving DecidableEq

instance : Inhabited Row := ⟨{ tag := 0, gid := 0, payload := [] }⟩

/-- Modelled from the spec: ParticleArray.remove_particles (section 6,
container external to src/) removes the rows at the given indices in one
pass, preserving the order of the survivors. -/
def remove_particles (rows : List Row) (ids : List ℕ) : List Row :=
  (rows.enum.filter (fun p => ¬ p.1 ∈ ids)).map Prod.snd

/-- Modelled from the spec: ParticleArray.resize (section 6, container
external to src/) preserves existing rows in place and leaves new rows
uninitialized; the uninitialized content is the arbitrary filler row. -/
def pa_resize (rows : List Row) (n : ℕ) (uninit : Row) : List Row :=
  if rows.length ≤ n then rows ++ List.replicate (n - rows.length) uninit
  else rows.take n

/-- Embeds ParticleArrayExchange.set_tag (parallel_manager.pyx line 419):
tag[i] = value for start <= i < stop. -/
def set_tag (rows : List Row) (start stop : ℕ) (value : ℤ) : List Row :=
  rows.enum.map
    (fun p => if start ≤ p.1 ∧ p.1 < stop then { p.2 with tag := value } else p.2)

/-- Net effect of ParticleArrayExchange._exchange_data (parallel_manager
line 339) on the local rows: the received rows (concatenated in the
deterministic lower-rank-first order) are written property by property
starting at the write cursor count; everything before count is
untouched. -/
def exchange_write (rows : List Row) (count : ℕ) (recv : List Row) : List Row :=
  rows.take count ++ recv ++ rows.drop (count + recv.length)

/-- State of one ParticleArrayExchange: the rows of its particle array
and the cached counts. -/
structure ExchangeState where
  rows : List Row
  num_local : ℕ
  num_remote : ℕ
deriving DecidableEq

/-- Embeds ParticleArrayExchange.lb_exchange_data (parallel_manager.pyx
line 227): remove the exported rows, resize to
current_size - numExport + numImport, initialize the tag of the appended
range [current_size - numExport, newsize) to 0 (Local), receive the
imported rows at the write cursor, and cache num_local = newsize. -/
def lb_exchange_data (s : ExchangeState) (exportLocalids : List ℕ)
    (numExport numImport : ℕ) (recv : List Row) (uninit : Row) : ExchangeState :=
  let current_size := s.num_local
  let rows1 := remove_particles s.rows exportLocalids
  let newsize := current_size - numExport + numImport
  let count := current_size - numExport
  let rows2 := pa_resize rows1 newsize uninit
  let rows3 := set_tag rows2 count newsize 0
  let rows4 := exchange_write rows3 count recv
  { rows := rows4, num_local := newsize, num_remote := s.num_remote }

/-- Embeds ParticleArrayExchange.remote_exchange_data
(parallel_manager.pyx line 286): no rows are removed; the array is
resized to current_size + numImport, set_tag(count, newsize, 0) writes
the literal 0 over the appended range, the imported rows are received at
the cursor, and num_remote = newsize - current_size; num_local is left
unchanged. -/
def remote_exchange_data (s : ExchangeState) (numImport : ℕ)
    (recv : List Row) (uninit : Row) : ExchangeState :=
  let current_size := s.num_local
  let newsize := current_size + numImport
  let count := current_size
  let rows2 := pa_resize s.rows newsize uninit
  let rows3 := set_tag rows2 count newsize 0
  let rows4 := exchange_write rows3 count recv
  { rows := rows4, num_local := s.num_local, num_remote := newsize - current_size }

/-- Scenario A particle array (spec section 8): four particles at
(0.1,0.1), (0.4,0.2), (1.2,0.2), (0.3,1.1), all with h = 0.5, gids in row
order. -/
def scenarioPA : PArray :=
  { x := [1/10, 4/10, 12/10, 3/10],
    y := [1/10, 2/10, 2/10, 11/10],
    z := [0, 0, 0, 0],
    h := [1/2, 1/2, 1/2, 1/2],
    gid := [0, 1, 2, 3] }

/-- Cell index (0, 0). -/
def c00 : IntPt := { x := 0, y := 0, z := 0 }

/-- Cell index (1, 0). -/
def c10 : IntPt := { x := 1, y := 0, z := 0 }

/-- Cell index (0, 1). -/
def c01 : IntPt := { x := 0, y := 1, z := 0 }

/-- The cell size NNPS.update computes for Scenario A. -/
def scenarioCS : ℚ := (nnps_update [scenarioPA] 2).1

/-- The cell map NNPS.update builds for Scenario A. -/
def scenarioCM : CellMap := (nnps_update [scenarioPA] 2).2

/-- The Cell invariant of the claim: every cell of the map carries its own
key and the shared cell size, its per-array index lists have equal length
narrays, and for every array k and position t the stored row falls in
this cell under find_cell_id and the stored global id is that row's gid. -/
def cellMapInv (pas : List PArray) (cs : ℚ) (cm : CellMap) : Prop :=
  ∀ p ∈ cm,
    p.2.cid = p.1 ∧ p.2.cell_size = cs ∧
    p.2.lindices.length = pas.length ∧ p.2.gindices.length = pas.length ∧
    ∀ k < pas.length,
      (p.2.lindices.getD k []).length = (p.2.gindices.getD k []).length ∧
      ∀ t < (p.2.lindices.getD k []).length,
        find_cell_id (binPoint (pas.getD k default) ((p.2.lindices.getD k []).getD t 0)) cs
          = p.2.cid ∧
        (p.2.gindices.getD k []).getD t 0
          = (pas.getD k default).gid.getD ((p.2.lindices.getD k []).getD t 0) 0

/-- Two-particle state separating get_nearest_particles from
brute_force_neighbors: rows at x = 0 and x = 0.6 with h = 0.1 and
h = 0.5; with radius_scale = 2 the cell size is 1. -/
def cexPA : PArray :=
  { x := [0, 6/10],
    y := [0, 0],
    z := [0, 0],
    h := [1/10, 1/2],
    gid := [0, 1] }

/-- The cell map NNPS.update builds for cexPA (current, cell size 1). -/
def cexCM : CellMap := (nnps_update [cexPA] 2).2

/-! ### Shared evaluation lemmas -/

/-- Scenario A cell size: radius_scale * max h = 2 * 0.5 = 1. -/
theorem scenarioCS_eq : scenarioCS = 1 := by
  norm_num [scenarioCS, nnps_update, nnps_compute_cell_size, compute_cell_size_from_hmax,
    carrayMax, scenarioPA]

/-- Scenario A cell map, fully evaluated: cells (0,0), (1,0), (0,1) with
rows {0,1}, {2}, {3}; gindices stay empty because NNPS._bin never appends
to them. -/
theorem scenarioCM_eq :
    scenarioCM =
      [(c00, { mkCell c00 1 1 2 with lindices := [[0, 1]] }),
       (c10, { mkCell c10 1 1 2 with lindices := [[2]] }),
       (c01, { mkCell c01 1 1 2 with lindices := [[3]] })] := by
  norm_num [scenarioCM, nnps_update, nnps_compute_cell_size, compute_cell_size_from_hmax,
    carrayMax, scenarioPA, nnps_bin, nnps_bin_one, find_cell_id, binPoint,
    real_to_int, rd, lookupCell, updateCell, appendLindOnly, mkCell, c00, c10, c01,
    _get_centroid, _compute_bounding_box, List.range_succ]

/-- Cell map of the two-particle separating state: both rows land in
cell (0,0) under cell size 1. -/
theorem cexCM_eq : cexCM = [(c00, { mkCell c00 1 1 2 with lindices := [[0, 1]] })] := by
  norm_num [cexCM, nnps_update, nnps_compute_cell_size, compute_cell_size_from_hmax,
    carrayMax, cexPA, nnps_bin, nnps_bin_one, find_cell_id, binPoint,
    real_to_int, rd, lookupCell, updateCell, appendLindOnly, mkCell, c00,
    _get_centroid, _compute_bounding_box, List.range_succ]

/-! ### C9 — Cell centroid and bounding box -/

/-- C9 counterexample: for the cell with index (0,0,3), size 1, layers 2,
the code leaves centroid.z and boxmin.z at 0, while the claimed per-axis
formulas give (3 + 0.5) * 1 = 3.5 and 3.5 - 2.5 = 1. -/
theorem cell_z_components_not_per_axis :
    (mkCell { x := 0, y := 0, z := 3 } 1 1 2).centroid.z = 0 ∧
    (mkCell { x := 0, y := 0, z := 3 } 1 1 2).centroid.z ≠ (((3 : ℤ) : ℚ) + 1/2) * 1 ∧
    (mkCell { x := 0, y := 0, z := 3 } 1 1 2).boxmin.z = 0 ∧
    (mkCell { x := 0, y := 0, z := 3 } 1 1 2).boxmin.z ≠
      (mkCell { x := 0, y := 0, z := 3 } 1 1 2).centroid.z - (((2 : ℤ) : ℚ) + 1/2) * 1 := by
  norm_num [mkCell, _get_centroid, _compute_bounding_box]

/-- C9 amended: for every constructed Cell the x and y components of the
centroid are (cid + 0.5) * cell_size and of boxmin/boxmax are
centroid -+ (layers + 0.5) * cell_size, while the z components of
centroid, boxmin and boxmax are all 0. -/
theorem cell_geometry (cid : IntPt) (cell_size : ℚ) (narrays : ℕ) (layers : ℤ) :
    (mkCell cid cell_size narrays layers).centroid.x = ((cid.x : ℚ) + 1/2) * cell_size ∧
    (mkCell cid cell_size narrays layers).centroid.y = ((cid.y : ℚ) + 1/2) * cell_size ∧
    (mkCell cid cell_size narrays layers).centroid.z = 0 ∧
    (mkCell cid cell_size narrays layers).boxmin.x
      = (mkCell cid cell_size narrays layers).centroid.x - ((layers : ℚ) + 1/2) * cell_size ∧
    (mkCell cid cell_size narrays layers).boxmax.x
      = (mkCell cid cell_size narrays layers).centroid.x + ((layers : ℚ) + 1/2) * cell_size ∧
    (mkCell cid cell_size narrays layers).boxmin.y
      = (mkCell cid cell_size narrays layers).centroid.y - ((layers : ℚ) + 1/2) * cell_size ∧
    (mkCell cid cell_size narrays layers).boxmax.y
      = (mkCell cid cell_size narrays layers).centroid.y + ((layers : ℚ) + 1/2) * cell_size ∧
    (mkCell cid cell_size narrays layers).boxmin.z = 0 ∧
    (mkCell cid cell_size narrays layers).boxmax.z = 0 := by
  simp [mkCell, _get_centroid, _compute_bounding_box]

/-! ### C8 — Cell size clamp -/

/-- C8 counterexample: at radius_scale = 2, Mh = 0 the warning goes to
stdout (a print statement), not to stderr as claimed. -/
theorem cell_size_warning_on_stdout :
    (compute_cell_size_from_hmax 2 0).warning = some Channel.stdout ∧
    (some Channel.stdout ≠ some Channel.stderr) := by
  refine ⟨?_, by simp⟩
  norm_num [compute_cell_size_from_hmax]

/-- C8 amended: the cell size is radius_scale * Mh unless that product is
below 1e-6, in which case it is 1.0 and the warning is emitted to stdout;
the result is never below 1e-6. -/
theorem compute_cell_size_clamped (radius_scale hmax : ℚ) :
    (compute_cell_size_from_hmax radius_scale hmax
      = if radius_scale * hmax < 1/1000000
        then { size := 1, warning := some Channel.stdout }
        else { size := radius_scale * hmax, warning := none }) ∧
    1/1000000 ≤ (compute_cell_size_from_hmax radius_scale hmax).size := by
  constructor
  · rfl
  · show (1 : ℚ)/1000000 ≤
      (if radius_scale * hmax < 1/1000000
        then ({ size := 1, warning := some Channel.stdout } : CellSizeResult)
        else { size := radius_scale * hmax, warning := none }).size
    split
    · norm_num
    · next hlt => simpa using le_of_not_lt hlt

/-! ### C7 — Scenario A binning and the serial bounds slip -/

/-- C7: the claim's Scenario A output is produced by the NNPS binning
engine (cell size 1, cells (0,0), (1,0), (0,1) with rows {0,1}, {2},
{3}), but the ParallelManager path the claim also names cannot compute it
on a single rank: _compute_bounds reads its reduce buffers outside the
in_parallel branch that assigns them, so serial compute_cell_size raises
(pm_compute_cell_size = none). -/
theorem scenarioA_nnps_ok_pm_serial_raises :
    pm_compute_cell_size false [scenarioPA] 2 = none ∧
    scenarioCS = 1 ∧
    scenarioCM.map Prod.fst = [c00, c10, c01] ∧
    lindOf (lookupCell scenarioCM c00) 0 = [0, 1] ∧
    lindOf (lookupCell scenarioCM c10) 0 = [2] ∧
    lindOf (lookupCell scenarioCM c01) 0 = [3] := by
  refine ⟨rfl, scenarioCS_eq, ?_, ?_, ?_, ?_⟩ <;>
    simp [scenarioCM_eq, lookupCell, lindOf, c00, c10, c01, mkCell]

/-! ### C6 — Scenario B neighbor query -/

/-- C6 counterexample: on Scenario A the query at row 0 does not return
{0, 1, 3}; row 3 at (0.3, 1.1) is at distance sqrt(1.04) > 1 = hi = hj
from (0.1, 0.1), so it fails the cutoff. -/
theorem scenarioB_set_is_not_013 :
    (get_nearest_particles [scenarioPA] 0 0 2 scenarioCS scenarioCM 0).toFinset
      ≠ ({0, 1, 3} : Finset ℕ) := by
  have h : get_nearest_particles [scenarioPA] 0 0 2 scenarioCS scenarioCM 0 = [0, 1] := by
    rw [scenarioCS_eq, scenarioCM_eq]
    norm_num [get_nearest_particles, cellContrib, neighborOffsets, find_cell_id, real_to_int, rd,
      fullPoint, scenarioPA, lookupCell, c00, c10, c01, mkCell, _get_centroid,
      _compute_bounding_box, nbrTest, distLt, List.filter]
  rw [h]
  decide

/-- C6 amended: with the Scenario A state and its up-to-date cell map,
get_nearest_particles(0, 0, 0, out) returns exactly {0, 1}: row written
in the order [0, 1]. -/
theorem scenarioB_result_is_01 :
    get_nearest_particles [scenarioPA] 0 0 2 scenarioCS scenarioCM 0 = [0, 1] := by
  rw [scenarioCS_eq, scenarioCM_eq]
  norm_num [get_nearest_particles, cellContrib, neighborOffsets, find_cell_id, real_to_int, rd,
    fullPoint, scenarioPA, lookupCell, c00, c10, c01, mkCell, _get_centroid,
    _compute_bounding_box, nbrTest, distLt, List.filter]

/-! ### C5 counterexample — NNPS binning leaves gindices empty -/

/-- C5 counterexample: after NNPS.update on Scenario A the cell (0,0)
holds two rows in lindices[0] but gindices[0] is empty (the append is
commented out in NNPS._bin), so the cell invariant fails on this map. -/
theorem nnps_update_breaks_cell_inv : ¬ cellMapInv [scenarioPA] scenarioCS scenarioCM := by
  intro h
  have hm : (c00, { mkCell c00 1 1 2 with lindices := [[0, 1]] }) ∈ scenarioCM := by
    rw [scenarioCM_eq]; exact List.mem_cons_self _ _
  have h0 := ((h _ hm).2.2.2.2 0 (by norm_num)).1
  simp [mkCell, c00] at h0

/-! ### C1 counterexample — brute force does not scale hj -/

/-- C1 counterexample: on the two-particle state with radius_scale = 2
and its current cell map, get_nearest_particles at row 0 returns {0, 1}
(row 1 is within its own scaled radius 2 * 0.5 = 1 > 0.6) while
brute_force_neighbors returns {0} (it compares against the unscaled
h = 0.5 < 0.6), so the two sets differ. -/
theorem get_nearest_vs_brute_force_differ :
    get_nearest_particles [cexPA] 0 0 2 1 cexCM 0 = [0, 1] ∧
    brute_force_neighbors [cexPA] 0 0 2 0 = [0] := by
  constructor
  · rw [cexCM_eq]
    norm_num [get_nearest_particles, cellContrib, neighborOffsets, find_cell_id, real_to_int, rd,
      fullPoint, cexPA, lookupCell, c00, mkCell, _get_centroid,
      _compute_bounding_box, nbrTest, distLt, List.filter]
  · norm_num [brute_force_neighbors, rd, cexPA, List.filter, List.range_succ]

/-! ### C10 — NNPS never reads ghost_layers -/

/-- Cells touched by one NNPS bin step keep layer count 2: a cell created
here is built with the Cell default layers = 2 and appendLindOnly leaves
layers unchanged. -/
theorem nnps_bin_one_layers (narrays pa_index : ℕ) (pa : PArray) (cs : ℚ)
    (cm : CellMap) (i : ℕ) (h : ∀ p ∈ cm, p.2.layers = 2) :
    ∀ p ∈ nnps_bin_one narrays pa_index pa cs cm i, p.2.layers = 2 := by
  intro p hp
  unfold nnps_bin_one updateCell at hp
  rcases List.mem_map.1 hp with ⟨q, hq, rfl⟩
  have hq2 : q.2.layers = 2 := by
    split at hq
    · exact h q hq
    · rcases List.mem_append.1 hq with hq | hq
      · exact h q hq
      · rw [List.mem_singleton.1 hq]; rfl
  split
  · simpa [appendLindOnly] using hq2
  · exact hq2

/-- Layer count 2 is preserved along a whole NNPS bin pass. -/
theorem nnps_bin_layers (narrays pa_index : ℕ) (pa : PArray) (cs : ℚ)
    (indices : List ℕ) (cm : CellMap) (h : ∀ p ∈ cm, p.2.layers = 2) :
    ∀ p ∈ nnps_bin narrays pa_index pa cs cm indices, p.2.layers = 2 := by
  induction indices generalizing cm with
  | nil => exact h
  | cons i rest ih =>
    exact ih _ (nnps_bin_one_layers narrays pa_index pa cs cm i h)

/-- Every cell of an NNPS.update cell map has layer count 2. -/
theorem nnps_update_layers (pas : List PArray) (radius_scale : ℚ) :
    ∀ p ∈ (nnps_update pas radius_scale).2, p.2.layers = 2 := by
  unfold nnps_update
  generalize (List.range pas.length) = ks
  have main : ∀ (ks : List ℕ) (cm : CellMap), (∀ p ∈ cm, p.2.layers = 2) →
      ∀ p ∈ ks.foldl
        (fun cm k => nnps_bin pas.length k (pas.getD k default)
          (nnps_compute_cell_size pas radius_scale).size cm
          (List.range (pas.getD k default).x.length)) cm,
        p.2.layers = 2 := by
    intro ks
    induction ks with
    | nil => intro cm h; exact h
    | cons k rest ih =>
      intro cm h
      exact ih _ (nnps_bin_layers _ _ _ _ _ cm h)
  exact main ks [] (by simp)

/-- C10: the NNPS constructor accepts ghost_layers but never reads it —
two instances differing only in that argument have identical cell size
and cell map, every neighbor query answers identically on them, and every
cell is built with the Cell default layer count 2. -/
theorem nnps_ignores_ghost_layers (dim : ℕ) (pas : List PArray) (radius_scale : ℚ)
    (gl1 gl2 : ℤ) (src_index dst_index d_idx : ℕ) :
    nnps_new dim pas radius_scale gl1 = nnps_new dim pas radius_scale gl2 ∧
    get_nearest_particles pas src_index dst_index radius_scale
        (nnps_new dim pas radius_scale gl1).1 (nnps_new dim pas radius_scale gl1).2 d_idx
      = get_nearest_particles pas src_index dst_index radius_scale
        (nnps_new dim pas radius_scale gl2).1 (nnps_new dim pas radius_scale gl2).2 d_idx ∧
    (nnps_new dim pas radius_scale gl1).2.all (fun p => decide (p.2.layers = 2)) = true := by
  refine ⟨rfl, rfl, ?_⟩
  rw [List.all_eq_true]
  intro p hp
  exact decide_eq_true (nnps_update_layers pas radius_scale p hp)

/-! ### C3 — Global-id density -/

/-- Concatenating the per-rank contiguous gid ranges in rank order gives
exactly the range of the total count. -/
theorem gid_ranges_flatten (counts : List ℕ) :
    (List.range counts.length).flatMap
      (fun r => (List.range (counts.getD r 0)).map (fun i => (counts.take r).sum + i))
    = List.range counts.sum := by
  induction counts with
  | nil => simp
  | cons c cs ih =>
    rw [List.length_cons, List.range_succ_eq_map, List.sum_cons, List.range_add,
      List.flatMap_cons, List.flatMap_map]
    congr 1
    · simp
    · rw [← ih, List.map_flatMap, List.flatMap_def, List.flatMap_def]
      congr 1
      apply List.map_congr_left
      intro a _
      simp [List.getD_cons_succ, List.take_succ_cons, List.sum_cons, List.map_map,
        Function.comp, Nat.add_assoc]

/-- C3: after update_particle_gids on every rank, rank r holds exactly
the contiguous block starting at sum(counts[0:r]) (the unsigned cast is
the identity while the total fits in 32 bits), and the concatenation over
ranks is exactly 0, 1, ..., totalLocal - 1. -/
theorem update_particle_gids_dense (counts : List ℕ) (h : counts.sum ≤ 2 ^ 32) :
    (∀ r < counts.length,
      update_particle_gids counts r
        = (List.range (counts.getD r 0)).map (fun i => (counts.take r).sum + i)) ∧
    (List.range counts.length).flatMap (update_particle_gids counts)
      = List.range counts.sum := by
  have key : ∀ r < counts.length,
      update_particle_gids counts r
        = (List.range (counts.getD r 0)).map (fun i => (counts.take r).sum + i) := by
    intro r hr
    unfold update_particle_gids
    apply List.map_congr_left
    intro i hi
    have hi2 : i < counts.getD r 0 := List.mem_range.1 hi
    have hbound : (counts.take r).sum + counts.getD r 0 ≤ counts.sum := by
      rw [← List.sum_take_add_sum_drop counts r, List.drop_eq_getElem_cons hr,
        List.sum_cons, List.getD_eq_getElem counts 0 hr]
      omega
    exact Nat.mod_eq_of_lt (lt_of_lt_of_le (by omega) h)
  refine ⟨key, ?_⟩
  have : (List.range counts.length).map (update_particle_gids counts)
      = (List.range counts.length).map
        (fun r => (List.range (counts.getD r 0)).map (fun i => (counts.take r).sum + i)) := by
    apply List.map_congr_left
    intro r hr
    exact key r (List.mem_range.1 hr)
  rw [List.flatMap_def, this, ← List.flatMap_def]
  exact gid_ranges_flatten counts

/-- C3 witness at counts = [2, 3, 1]. -/
theorem update_particle_gids_dense_witness :
    (∀ r < ([2, 3, 1] : List ℕ).length,
      update_particle_gids [2, 3, 1] r
        = (List.range (([2, 3, 1] : List ℕ).getD r 0)).map
            (fun i => (([2, 3, 1] : List ℕ).take r).sum + i)) ∧
    (List.range ([2, 3, 1] : List ℕ).length).flatMap (update_particle_gids [2, 3, 1])
      = List.range ([2, 3, 1] : List ℕ).sum :=
  update_particle_gids_dense [2, 3, 1] (by decide)

/-! ### C2 — remote exchange tags the appended rows Local, not Remote -/

/-- C2 failing input, evaluated: importing one row (sent from a Local row,
tag 0) into a one-row array removes nothing and leaves num_local at 1,
but the appended row ends with tag 0 = Local; the claim requires Remote.
The uninitialized filler tag 7 shows set_tag writing the literal 0. -/
theorem remote_exchange_appends_tag_local :
    remote_exchange_data
        { rows := [{ tag := 0, gid := 5, payload := [] }], num_local := 1, num_remote := 0 }
        1 [{ tag := 0, gid := 9, payload := [] }] { tag := 7, gid := 0, payload := [] }
      = { rows := [{ tag := 0, gid := 5, payload := [] },
                   { tag := 0, gid := 9, payload := [] }],
          num_local := 1, num_remote := 1 } ∧
    ((remote_exchange_data
        { rows := [{ tag := 0, gid := 5, payload := [] }], num_local := 1, num_remote := 0 }
        1 [{ tag := 0, gid := 9, payload := [] }]
        { tag := 7, gid := 0, payload := [] }).rows.getD 1 default).tag = LocalTag ∧
    LocalTag ≠ RemoteTag := by
  refine ⟨?_, ?_, by decide⟩ <;>
    simp [remote_exchange_data, pa_resize, set_tag, exchange_write, List.enum,
      LocalTag, List.replicate]

/-! ### C4 — load-balance exchange -/

theorem set_tag_length (rows : List Row) (a b : ℕ) (v : ℤ) :
    (set_tag rows a b v).length = rows.length := by
  simp [set_tag, List.enum_length]

theorem set_tag_take (rows : List Row) (a b : ℕ) (v : ℤ) :
    (set_tag rows a b v).take a = rows.take a := by
  apply List.ext_getElem?
  intro t
  simp only [List.getElem?_take]
  split
  · next ht =>
    simp only [set_tag, List.getElem?_map, List.getElem?_enum, Option.map_map]
    cases hr : rows[t]? with
    | none => rfl
    | some r =>
      simp [show ¬(a ≤ t ∧ t < b) from by omega]
  · rfl

theorem remove_particles_length (rows : List Row) (ids : List ℕ)
    (hnodup : ids.Nodup) (hbound : ∀ e ∈ ids, e < rows.length) :
    (remove_particles rows ids).length = rows.length - ids.length := by
  unfold remove_particles
  rw [List.length_map, ← List.countP_eq_length_filter]
  have h1 : List.countP (fun p => decide (¬ p.1 ∈ ids)) rows.enum
      = List.countP (fun k => decide (¬ k ∈ ids)) (List.range rows.length) := by
    rw [← List.enum_map_fst rows, List.countP_map]
    rfl
  have h2 : List.countP (fun k => decide (k ∈ ids)) (List.range rows.length)
      = ids.length := by
    rw [List.countP_eq_length_filter]
    have hsub : (List.filter (fun k => decide (k ∈ ids)) (List.range rows.length)).toFinset
        = ids.toFinset := by
      ext k
      simp only [List.mem_toFinset, List.mem_filter, List.mem_range, decide_eq_true_eq]
      exact ⟨fun h => h.2, fun h => ⟨hbound k h, h⟩⟩
    have hn1 : (List.filter (fun k => decide (k ∈ ids)) (List.range rows.length)).Nodup :=
      (List.nodup_range _).filter _
    rw [← List.toFinset_card_of_nodup hn1, hsub, List.toFinset_card_of_nodup hnodup]
  have h3 : List.countP (fun k => decide (¬ k ∈ ids)) (List.range rows.length)
      + List.countP (fun k => decide (k ∈ ids)) (List.range rows.length)
      = rows.length := by
    have hsplit := List.length_eq_countP_add_countP (fun k => decide (k ∈ ids))
      (l := List.range rows.length)
    have hcongr : List.countP (fun a => decide ¬(decide (a ∈ ids) = true))
        (List.range rows.length)
        = List.countP (fun k => decide (¬ k ∈ ids)) (List.range rows.length) := by
      apply List.countP_congr
      intro a _
      simp
    simp only [List.length_range] at hsplit
    omega
  omega

theorem lb_exchange_data_spec (s : ExchangeState) (ids : List ℕ)
    (numImport : ℕ) (recv : List Row) (uninit : Row)
    (hlen : s.rows.length = s.num_local)
    (hnodup : ids.Nodup)
    (hbound : ∀ e ∈ ids, e < s.num_local)
    (hrecv : recv.length = numImport)
    (htags : ∀ row ∈ recv, row.tag = LocalTag) :
    (lb_exchange_data s ids ids.length numImport recv uninit).rows
      = remove_particles s.rows ids ++ recv ∧
    (lb_exchange_data s ids ids.length numImport recv uninit).rows.length
      = s.num_local - ids.length + numImport ∧
    (lb_exchange_data s ids ids.length numImport recv uninit).num_local
      = s.num_local - ids.length + numImport ∧
    ∀ t, s.num_local - ids.length ≤ t → t < s.num_local - ids.length + numImport →
      ((lb_exchange_data s ids ids.length numImport recv uninit).rows.getD t default).tag
        = LocalTag := by
  have hb2 : ∀ e ∈ ids, e < s.rows.length := by
    rw [hlen]; exact hbound
  have hrem : (remove_particles s.rows ids).length = s.num_local - ids.length := by
    rw [remove_particles_length s.rows ids hnodup hb2, hlen]
  have hresize : pa_resize (remove_particles s.rows ids)
      (s.num_local - ids.length + numImport) uninit
      = remove_particles s.rows ids ++ List.replicate numImport uninit := by
    unfold pa_resize
    rw [if_pos (by omega), hrem]
    congr 1
    congr 1
    omega
  have hrows : (lb_exchange_data s ids ids.length numImport recv uninit).rows
      = remove_particles s.rows ids ++ recv := by
    show exchange_write
      (set_tag (pa_resize (remove_particles s.rows ids)
          (s.num_local - ids.length + numImport) uninit)
        (s.num_local - ids.length) (s.num_local - ids.length + numImport) 0)
      (s.num_local - ids.length) recv
      = remove_particles s.rows ids ++ recv
    rw [hresize]
    unfold exchange_write
    rw [show s.num_local - ids.length = (remove_particles s.rows ids).length from hrem.symm,
      set_tag_take, List.take_left]
    rw [List.drop_eq_nil_of_le, List.append_nil]
    rw [set_tag_length]
    simp [hrem, hrecv]
  refine ⟨hrows, ?_, ?_, ?_⟩
  · rw [hrows]
    simp [hrem, hrecv]
  · rfl
  · intro t ht1 ht2
    rw [hrows]
    rw [List.getD_append_right _ _ _ _ (by omega)]
    rw [hrem]
    have htlt : t - (s.num_local - ids.length) < recv.length := by omega
    rw [List.getD_eq_getElem recv default htlt]
    exact htags _ (List.getElem_mem htlt)

theorem lb_exchange_data_spec_witness :
    (lb_exchange_data
        { rows := [{ tag := 0, gid := 0, payload := [] }, { tag := 0, gid := 1, payload := [] }],
          num_local := 2, num_remote := 0 }
        [0] [0].length 1 [{ tag := 0, gid := 9, payload := [] }]
        { tag := 7, gid := 0, payload := [] }).rows
      = remove_particles
          [{ tag := 0, gid := 0, payload := [] }, { tag := 0, gid := 1, payload := [] }] [0]
        ++ [{ tag := 0, gid := 9, payload := [] }] ∧
    (lb_exchange_data
        { rows := [{ tag := 0, gid := 0, payload := [] }, { tag := 0, gid := 1, payload := [] }],
          num_local := 2, num_remote := 0 }
        [0] [0].length 1 [{ tag := 0, gid := 9, payload := [] }]
        { tag := 7, gid := 0, payload := [] }).rows.length = 2 - [0].length + 1 ∧
    (lb_exchange_data
        { rows := [{ tag := 0, gid := 0, payload := [] }, { tag := 0, gid := 1, payload := [] }],
          num_local := 2, num_remote := 0 }
        [0] [0].length 1 [{ tag := 0, gid := 9, payload := [] }]
        { tag := 7, gid := 0, payload := [] }).num_local = 2 - [0].length + 1 ∧
    ∀ t, 2 - [0].length ≤ t → t < 2 - [0].length + 1 →
      ((lb_exchange_data
          { rows := [{ tag := 0, gid := 0, payload := [] }, { tag := 0, gid := 1, payload := [] }],
            num_local := 2, num_remote := 0 }
          [0] [0].length 1 [{ tag := 0, gid := 9, payload := [] }]
          { tag := 7, gid := 0, payload := [] }).rows.getD t default).tag = LocalTag :=
  lb_exchange_data_spec
    { rows := [{ tag := 0, gid := 0, payload := [] }, { tag := 0, gid := 1, payload := [] }],
      num_local := 2, num_remote := 0 }
    [0] 1 [{ tag := 0, gid := 9, payload := [] }] { tag := 7, gid := 0, payload := [] }
    (by decide) (by decide) (by decide) (by decide) (by decide)

/-! ### C5 — cell-map invariant under ParallelManager binning -/


theorem getD_replicate_nil (n k : ℕ) :
    (List.replicate n ([] : List ℕ)).getD k [] = [] := by
  rw [List.getD_eq_getElem?_getD, List.getElem?_replicate]
  split <;> rfl

theorem getD_set_ne (l : List (List ℕ)) (j k : ℕ) (x : List ℕ) (h : j ≠ k) :
    (l.set j x).getD k [] = l.getD k [] := by
  rw [List.getD_eq_getElem?_getD, List.getElem?_set_ne h, ← List.getD_eq_getElem?_getD]

theorem getD_set_self (l : List (List ℕ)) (k : ℕ) (x : List ℕ) (h : k < l.length) :
    (l.set k x).getD k [] = x := by
  rw [List.getD_eq_getElem?_getD, List.getElem?_set_self h]
  rfl

theorem pm_bin_one_cell_inv (pas : List PArray) (cs : ℚ) (layers : ℤ) (pa_index : ℕ)
    (cm : CellMap) (i : ℕ)
    (hpa : pa_index < pas.length)
    (hinv : cellMapInv pas cs cm) :
    cellMapInv pas cs
      (pm_bin_one pas.length layers pa_index (pas.getD pa_index default) cs cm i) := by
  have hinv1 : cellMapInv pas cs
      (if (lookupCell cm (find_cell_id (binPoint (pas.getD pa_index default) i) cs)).isSome
       then cm
       else cm ++ [(find_cell_id (binPoint (pas.getD pa_index default) i) cs,
         mkCell (find_cell_id (binPoint (pas.getD pa_index default) i) cs) cs
           pas.length layers)]) := by
    split
    · exact hinv
    · intro p hp
      rcases List.mem_append.1 hp with hp | hp
      · exact hinv p hp
      · rw [List.mem_singleton.1 hp]
        dsimp only [mkCell]
        refine ⟨rfl, rfl, by simp, by simp, ?_⟩
        intro k _
        exact ⟨rfl, fun t ht => absurd ht (by simp)⟩
  intro p hp
  unfold pm_bin_one updateCell at hp
  rcases List.mem_map.1 hp with ⟨q, hq, rfl⟩
  have hqinv := hinv1 q hq
  by_cases hqk : q.1 = find_cell_id (binPoint (pas.getD pa_index default) i) cs
  · rw [if_pos hqk]
    obtain ⟨hcid, hcs, hllen, hglen, hk⟩ := hqinv
    refine ⟨hcid, hcs, ?_, ?_, ?_⟩
    · simpa [appendBoth] using hllen
    · simpa [appendBoth] using hglen
    · intro k hklt
      by_cases hkp : k = pa_index
      · subst hkp
        have hl : ((appendBoth q.2 k i ((pas.getD k default).gid.getD i 0)).lindices.getD k [])
            = (q.2.lindices.getD k []) ++ [i] := by
          unfold appendBoth
          exact getD_set_self _ _ _ (by omega)
        have hg : ((appendBoth q.2 k i ((pas.getD k default).gid.getD i 0)).gindices.getD k [])
            = (q.2.gindices.getD k []) ++ [(pas.getD k default).gid.getD i 0] := by
          unfold appendBoth
          exact getD_set_self _ _ _ (by omega)
        rw [hl, hg]
        obtain ⟨hlen, ht⟩ := hk k hklt
        constructor
        · rw [List.length_append, List.length_append, hlen]
          rfl
        · intro t htl
          rw [List.length_append, List.length_singleton] at htl
          by_cases htt : t < (q.2.lindices.getD k []).length
          · rw [List.getD_append _ _ _ _ htt, List.getD_append _ _ _ _ (by omega)]
            exact ht t htt
          · have hteq : t = (q.2.lindices.getD k []).length := by omega
            subst hteq
            rw [List.getD_append_right _ _ _ _ (le_refl _),
              List.getD_append_right _ _ _ _ (by omega), Nat.sub_self, hlen, Nat.sub_self]
            constructor
            · show find_cell_id (binPoint (pas.getD k default) (([i].getD 0 0 : ℕ))) cs
                = q.2.cid
              simp only [List.getD_cons_zero]
              rw [hcid, hqk]
            · show [(pas.getD k default).gid.getD i 0].getD 0 0
                = (pas.getD k default).gid.getD (([i].getD 0 0 : ℕ)) 0
              simp
      · have hl : ((appendBoth q.2 pa_index i ((pas.getD pa_index default).gid.getD i 0)).lindices.getD k [])
            = q.2.lindices.getD k [] := by
          unfold appendBoth
          exact getD_set_ne _ _ _ _ (fun he => hkp he.symm)
        have hg : ((appendBoth q.2 pa_index i ((pas.getD pa_index default).gid.getD i 0)).gindices.getD k [])
            = q.2.gindices.getD k [] := by
          unfold appendBoth
          exact getD_set_ne _ _ _ _ (fun he => hkp he.symm)
        rw [hl, hg]
        have := (hk k hklt)
        simpa [appendBoth] using this
  · rw [if_neg hqk]
    exact hqinv

theorem pm_bin_preserves_cell_inv (pas : List PArray) (cs : ℚ) (layers : ℤ)
    (pa_index : ℕ) (indices : List ℕ) (cm : CellMap)
    (hpa : pa_index < pas.length)
    (hinv : cellMapInv pas cs cm) :
    cellMapInv pas cs
      (pm_bin pas.length layers pa_index (pas.getD pa_index default) cs cm indices) := by
  induction indices generalizing cm with
  | nil => exact hinv
  | cons j rest ih =>
    exact ih _ (pm_bin_one_cell_inv pas cs layers pa_index cm j hpa hinv)

theorem pm_bin_preserves_cell_inv_witness :
    cellMapInv [scenarioPA] 1
      (pm_bin ([scenarioPA] : List PArray).length 2 0
        (([scenarioPA] : List PArray).getD 0 default) 1 [] [0, 1, 2, 3]) :=
  pm_bin_preserves_cell_inv [scenarioPA] 1 2 0 [0, 1, 2, 3] []
    (by norm_num) (by simp [cellMapInv])

/-! ### C1 — exactness of the cell-based neighbor query -/


/-- Association-list lookup only returns stored entries. -/
theorem lookupCell_mem (cm : CellMap) (k : IntPt) (c : Cell)
    (h : lookupCell cm k = some c) : (k, c) ∈ cm := by
  induction cm with
  | nil => simp [lookupCell] at h
  | cons p rest ih =>
    rcases p with ⟨k1, c1⟩
    by_cases hk : k1 = k
    · rw [lookupCell, if_pos hk] at h
      subst hk
      rw [Option.some_inj.1 h]
      exact List.mem_cons_self _ _
    · rw [lookupCell, if_neg hk] at h
      exact List.mem_cons_of_mem _ (ih h)

/-- The nine visited cell ids are pairwise distinct. -/
theorem neighborOffsets_nodup (cid : IntPt) : (neighborOffsets cid).Nodup := by
  simp [neighborOffsets, IntPt.mk.injEq]
  omega

/-- A lattice point within one step of cid in both coordinates and with
zero z is among the nine visited cell ids. -/
theorem mem_neighborOffsets (cid q : IntPt) (hz : q.z = 0)
    (hx1 : cid.x - 1 ≤ q.x) (hx2 : q.x ≤ cid.x + 1)
    (hy1 : cid.y - 1 ≤ q.y) (hy2 : q.y ≤ cid.y + 1) :
    q ∈ neighborOffsets cid := by
  rcases q with ⟨qx, qy, qz⟩
  dsimp only at hz hx1 hx2 hy1 hy2
  subst hz
  simp only [neighborOffsets, List.mem_cons, List.not_mem_nil, or_false, IntPt.mk.injEq,
    and_true]
  omega

/-- Bounding a quantity below r * r by a larger square. -/
theorem sq_lt_of_le_of_lt (a r c : ℚ) (hr : 0 < r) (hrc : r ≤ c) (h : a < r * r) :
    a < c * c := by
  nlinarith

/-- A square below c * c bounds the base within (-c, c). -/
theorem abs_lt_of_sq_lt (a c : ℚ) (hc : 0 < c) (h : a * a < c * c) :
    -c < a ∧ a < c := by
  constructor <;> nlinarith

/-- Points within one cell size of each other land in bins at most one
apart. -/
theorem floor_near (a b c : ℚ) (hc : 0 < c) (h1 : -c < a - b) (h2 : a - b < c) :
    ⌊b / c⌋ - 1 ≤ ⌊a / c⌋ ∧ ⌊a / c⌋ ≤ ⌊b / c⌋ + 1 := by
  have hab : a / c < b / c + 1 := by
    rw [div_add' _ _ _ (ne_of_gt hc), div_lt_div_iff₀ hc hc]
    nlinarith
  have hba : b / c < a / c + 1 := by
    rw [div_add' _ _ _ (ne_of_gt hc), div_lt_div_iff₀ hc hc]
    nlinarith
  constructor
  · have h3 := Int.floor_le_floor (le_of_lt hba)
    rw [show a / c + 1 = a / c + (1 : ℤ) by norm_num, Int.floor_add_int] at h3
    omega
  · have h3 := Int.floor_le_floor (le_of_lt hab)
    rw [show b / c + 1 = b / c + (1 : ℤ) by norm_num, Int.floor_add_int] at h3
    omega

/-- What membership in a cell contribution means. -/
theorem mem_cellContrib (cm : CellMap) (src_index : ℕ) (src : PArray)
    (radius_scale : ℚ) (xi : Pt) (hi : ℚ) (a : IntPt) (j : ℕ) :
    j ∈ cellContrib cm src_index src radius_scale xi hi a ↔
      ∃ cell, lookupCell cm a = some cell ∧ j ∈ cell.lindices.getD src_index [] ∧
        nbrTest src radius_scale xi hi j = true := by
  cases hlk : lookupCell cm a with
  | none => simp [cellContrib, hlk]
  | some cell => simp [cellContrib, hlk, List.mem_filter]

/-- Exactness of the NNPS neighbor query: with a current cell map for the
source array (every row is stored in the cell of its coordinates and only
there, each cell's rows once and in range) and a cell size at least every
scaled smoothing length involved, NNPS.get_nearest_particles returns
exactly the rows j with d < hi or d < hj (hi, hj the radius_scale-scaled
smoothing lengths, d the full 3-d distance — the test nbrTest is that
comparison exactly), each exactly once. -/
theorem get_nearest_particles_exact (pas : List PArray) (src_index dst_index : ℕ)
    (radius_scale cell_size : ℚ) (cm : CellMap) (d_idx : ℕ)
    (hcs : 0 < cell_size)
    (hcover : ∀ j < (pas.getD src_index default).x.length,
      j ∈ lindOf (lookupCell cm
        (find_cell_id (binPoint (pas.getD src_index default) j) cell_size)) src_index)
    (hsound : ∀ p ∈ cm, ∀ j ∈ p.2.lindices.getD src_index [],
      j < (pas.getD src_index default).x.length ∧
      find_cell_id (binPoint (pas.getD src_index default) j) cell_size = p.1)
    (hnodup : ∀ p ∈ cm, (p.2.lindices.getD src_index []).Nodup)
    (hhs : ∀ j < (pas.getD src_index default).x.length,
      radius_scale * rd (pas.getD src_index default).h j ≤ cell_size)
    (hhd : radius_scale * rd (pas.getD dst_index default).h d_idx ≤ cell_size) :
    (∀ j, j ∈ get_nearest_particles pas src_index dst_index radius_scale cell_size cm d_idx
      ↔ j < (pas.getD src_index default).x.length ∧
        nbrTest (pas.getD src_index default) radius_scale
          (fullPoint (pas.getD dst_index default) d_idx)
          (radius_scale * rd (pas.getD dst_index default).h d_idx) j = true) ∧
    (get_nearest_particles pas src_index dst_index radius_scale cell_size cm d_idx).Nodup := by
  set src := pas.getD src_index default with hsrc
  set dst := pas.getD dst_index default with hdst
  set xi := fullPoint dst d_idx with hxi
  set hi := radius_scale * rd dst.h d_idx with hhi
  set cid0 := find_cell_id xi cell_size with hcid0
  have hgnp : get_nearest_particles pas src_index dst_index radius_scale cell_size cm d_idx
      = (neighborOffsets cid0).flatMap
          (cellContrib cm src_index src radius_scale xi hi) := rfl
  constructor
  · intro j
    rw [hgnp, List.mem_flatMap]
    constructor
    · rintro ⟨a, _, hja⟩
      obtain ⟨cell, hlk, hjl, htest⟩ := (mem_cellContrib _ _ _ _ _ _ _ _).1 hja
      exact ⟨(hsound _ (lookupCell_mem cm a cell hlk) j hjl).1, htest⟩
    · rintro ⟨hjN, htest⟩
      have hcj := hcover j hjN
      cases hlk : lookupCell cm (find_cell_id (binPoint src j) cell_size) with
      | none => rw [hlk] at hcj; simp [lindOf] at hcj
      | some cell =>
        rw [hlk] at hcj
        simp only [lindOf] at hcj
        refine ⟨find_cell_id (binPoint src j) cell_size, ?_,
          (mem_cellContrib _ _ _ _ _ _ _ _).2 ⟨cell, hlk, hcj, htest⟩⟩
        have htest2 : (0 < hi ∧
              ((xi.x - rd src.x j) * (xi.x - rd src.x j)
                + (xi.y - rd src.y j) * (xi.y - rd src.y j)
                + (xi.z - rd src.z j) * (xi.z - rd src.z j)) < hi * hi) ∨
            (0 < radius_scale * rd src.h j ∧
              ((xi.x - rd src.x j) * (xi.x - rd src.x j)
                + (xi.y - rd src.y j) * (xi.y - rd src.y j)
                + (xi.z - rd src.z j) * (xi.z - rd src.z j))
                < (radius_scale * rd src.h j) * (radius_scale * rd src.h j)) := by
          have h0 := htest
          simp only [nbrTest, distLt, fullPoint, Bool.or_eq_true, Bool.and_eq_true,
            decide_eq_true_eq] at h0
          exact h0
        have hd2 : ((xi.x - rd src.x j) * (xi.x - rd src.x j)
            + (xi.y - rd src.y j) * (xi.y - rd src.y j)
            + (xi.z - rd src.z j) * (xi.z - rd src.z j)) < cell_size * cell_size := by
          rcases htest2 with ⟨hr, hd⟩ | ⟨hr, hd⟩
          · exact sq_lt_of_le_of_lt _ _ _ hr hhd hd
          · exact sq_lt_of_le_of_lt _ _ _ hr (hhs j hjN) hd
        have hdx2 : (xi.x - rd src.x j) * (xi.x - rd src.x j) < cell_size * cell_size := by
          nlinarith [mul_self_nonneg (xi.y - rd src.y j), mul_self_nonneg (xi.z - rd src.z j)]
        have hdy2 : (xi.y - rd src.y j) * (xi.y - rd src.y j) < cell_size * cell_size := by
          nlinarith [mul_self_nonneg (xi.x - rd src.x j), mul_self_nonneg (xi.z - rd src.z j)]
        obtain ⟨hdxl, hdxr⟩ := abs_lt_of_sq_lt _ _ hcs hdx2
        obtain ⟨hdyl, hdyr⟩ := abs_lt_of_sq_lt _ _ hcs hdy2
        have hfx := floor_near (rd src.x j) xi.x cell_size hcs (by linarith) (by linarith)
        have hfy := floor_near (rd src.y j) xi.y cell_size hcs (by linarith) (by linarith)
        have e1 : (find_cell_id (binPoint src j) cell_size).x
            = ⌊rd src.x j / cell_size⌋ := rfl
        have e2 : (find_cell_id (binPoint src j) cell_size).y
            = ⌊rd src.y j / cell_size⌋ := rfl
        have e3 : (find_cell_id (binPoint src j) cell_size).z = 0 := rfl
        have e4 : cid0.x = ⌊xi.x / cell_size⌋ := rfl
        have e5 : cid0.y = ⌊xi.y / cell_size⌋ := rfl
        exact mem_neighborOffsets cid0 _ e3
          (by rw [e1, e4]; omega) (by rw [e1, e4]; omega)
          (by rw [e2, e5]; omega) (by rw [e2, e5]; omega)
  · rw [hgnp]
    refine List.nodup_flatMap.2 ⟨?_, ?_⟩
    · intro a _
      cases hlk : lookupCell cm a with
      | none => simp [cellContrib, hlk]
      | some cell =>
        simp only [cellContrib, hlk]
        exact (hnodup _ (lookupCell_mem cm a cell hlk)).filter _
    · refine (neighborOffsets_nodup cid0).imp ?_
      intro a b hab j hja hjb
      obtain ⟨ca, hlka, hjla, _⟩ := (mem_cellContrib _ _ _ _ _ _ _ _).1 hja
      obtain ⟨cb, hlkb, hjlb, _⟩ := (mem_cellContrib _ _ _ _ _ _ _ _).1 hjb
      have ha := (hsound _ (lookupCell_mem cm a ca hlka) j hjla).2
      have hb := (hsound _ (lookupCell_mem cm b cb hlkb) j hjlb).2
      exact hab (ha.symm.trans hb)

/-- What membership in a planar cell contribution means. -/
theorem mem_pm_cellContrib (cm : CellMap) (src_index : ℕ) (src : PArray)
    (radius_scale : ℚ) (xi : Pt) (hi : ℚ) (a : IntPt) (j : ℕ) :
    j ∈ pm_cellContrib cm src_index src radius_scale xi hi a ↔
      ∃ cell, lookupCell cm a = some cell ∧ j ∈ cell.lindices.getD src_index [] ∧
        pm_nbrTest src radius_scale xi hi j = true := by
  cases hlk : lookupCell cm a with
  | none => simp [pm_cellContrib, hlk]
  | some cell => simp [pm_cellContrib, hlk, List.mem_filter]

/-- Exactness of the ParallelManager neighbor query, with the planar
(z = 0) distance its code computes: under the same current-cell-map and
cell-size hypotheses as the NNPS version, the output holds exactly the
source rows passing the planar test, each once. -/
theorem pm_get_nearest_particles_exact (pas : List PArray) (src_index dst_index : ℕ)
    (radius_scale cell_size : ℚ) (cm : CellMap) (i : ℕ)
    (hcs : 0 < cell_size)
    (hcover : ∀ j < (pas.getD src_index default).x.length,
      j ∈ lindOf (lookupCell cm
        (find_cell_id (binPoint (pas.getD src_index default) j) cell_size)) src_index)
    (hsound : ∀ p ∈ cm, ∀ j ∈ p.2.lindices.getD src_index [],
      j < (pas.getD src_index default).x.length ∧
      find_cell_id (binPoint (pas.getD src_index default) j) cell_size = p.1)
    (hnodup : ∀ p ∈ cm, (p.2.lindices.getD src_index []).Nodup)
    (hhs : ∀ j < (pas.getD src_index default).x.length,
      radius_scale * rd (pas.getD src_index default).h j ≤ cell_size)
    (hhd : radius_scale * rd (pas.getD dst_index default).h i ≤ cell_size) :
    (∀ j, j ∈ pm_get_nearest_particles pas src_index dst_index radius_scale cell_size cm i
      ↔ j < (pas.getD src_index default).x.length ∧
        pm_nbrTest (pas.getD src_index default) radius_scale
          (binPoint (pas.getD dst_index default) i)
          (radius_scale * rd (pas.getD dst_index default).h i) j = true) ∧
    (pm_get_nearest_particles pas src_index dst_index radius_scale cell_size cm i).Nodup := by
  set src := pas.getD src_index default with hsrc
  set dst := pas.getD dst_index default with hdst
  set xi := binPoint dst i with hxi
  set hi := radius_scale * rd dst.h i with hhi
  set cid0 := find_cell_id xi cell_size with hcid0
  have hgnp : pm_get_nearest_particles pas src_index dst_index radius_scale cell_size cm i
      = (neighborOffsets cid0).flatMap
          (pm_cellContrib cm src_index src radius_scale xi hi) := rfl
  constructor
  · intro j
    rw [hgnp, List.mem_flatMap]
    constructor
    · rintro ⟨a, _, hja⟩
      obtain ⟨cell, hlk, hjl, htest⟩ := (mem_pm_cellContrib _ _ _ _ _ _ _ _).1 hja
      exact ⟨(hsound _ (lookupCell_mem cm a cell hlk) j hjl).1, htest⟩
    · rintro ⟨hjN, htest⟩
      have hcj := hcover j hjN
      cases hlk : lookupCell cm (find_cell_id (binPoint src j) cell_size) with
      | none => rw [hlk] at hcj; simp [lindOf] at hcj
      | some cell =>
        rw [hlk] at hcj
        simp only [lindOf] at hcj
        refine ⟨find_cell_id (binPoint src j) cell_size, ?_,
          (mem_pm_cellContrib _ _ _ _ _ _ _ _).2 ⟨cell, hlk, hcj, htest⟩⟩
        have htest2 : (0 < hi ∧
              ((xi.x - rd src.x j) * (xi.x - rd src.x j)
                + (xi.y - rd src.y j) * (xi.y - rd src.y j)
                + xi.z * xi.z) < hi * hi) ∨
            (0 < radius_scale * rd src.h j ∧
              ((xi.x - rd src.x j) * (xi.x - rd src.x j)
                + (xi.y - rd src.y j) * (xi.y - rd src.y j)
                + xi.z * xi.z)
                < (radius_scale * rd src.h j) * (radius_scale * rd src.h j)) := by
          have h0 := htest
          simp only [pm_nbrTest, distLt, binPoint, Bool.or_eq_true, Bool.and_eq_true,
            decide_eq_true_eq, sub_zero] at h0
          exact h0
        have hd2 : ((xi.x - rd src.x j) * (xi.x - rd src.x j)
            + (xi.y - rd src.y j) * (xi.y - rd src.y j)
            + xi.z * xi.z) < cell_size * cell_size := by
          rcases htest2 with ⟨hr, hd⟩ | ⟨hr, hd⟩
          · exact sq_lt_of_le_of_lt _ _ _ hr hhd hd
          · exact sq_lt_of_le_of_lt _ _ _ hr (hhs j hjN) hd
        have hdx2 : (xi.x - rd src.x j) * (xi.x - rd src.x j) < cell_size * cell_size := by
          nlinarith [mul_self_nonneg (xi.y - rd src.y j), mul_self_nonneg xi.z]
        have hdy2 : (xi.y - rd src.y j) * (xi.y - rd src.y j) < cell_size * cell_size := by
          nlinarith [mul_self_nonneg (xi.x - rd src.x j), mul_self_nonneg xi.z]
        obtain ⟨hdxl, hdxr⟩ := abs_lt_of_sq_lt _ _ hcs hdx2
        obtain ⟨hdyl, hdyr⟩ := abs_lt_of_sq_lt _ _ hcs hdy2
        have hfx := floor_near (rd src.x j) xi.x cell_size hcs (by linarith) (by linarith)
        have hfy := floor_near (rd src.y j) xi.y cell_size hcs (by linarith) (by linarith)
        have e1 : (find_cell_id (binPoint src j) cell_size).x
            = ⌊rd src.x j / cell_size⌋ := rfl
        have e2 : (find_cell_id (binPoint src j) cell_size).y
            = ⌊rd src.y j / cell_size⌋ := rfl
        have e3 : (find_cell_id (binPoint src j) cell_size).z = 0 := rfl
        have e4 : cid0.x = ⌊xi.x / cell_size⌋ := rfl
        have e5 : cid0.y = ⌊xi.y / cell_size⌋ := rfl
        exact mem_neighborOffsets cid0 _ e3
          (by rw [e1, e4]; omega) (by rw [e1, e4]; omega)
          (by rw [e2, e5]; omega) (by rw [e2, e5]; omega)
  · rw [hgnp]
    refine List.nodup_flatMap.2 ⟨?_, ?_⟩
    · intro a _
      cases hlk : lookupCell cm a with
      | none => simp [pm_cellContrib, hlk]
      | some cell =>
        simp only [pm_cellContrib, hlk]
        exact (hnodup _ (lookupCell_mem cm a cell hlk)).filter _
    · refine (neighborOffsets_nodup cid0).imp ?_
      intro a b hab j hja hjb
      obtain ⟨ca, hlka, hjla, _⟩ := (mem_pm_cellContrib _ _ _ _ _ _ _ _).1 hja
      obtain ⟨cb, hlkb, hjlb, _⟩ := (mem_pm_cellContrib _ _ _ _ _ _ _ _).1 hjb
      have ha := (hsound _ (lookupCell_mem cm a ca hlka) j hjla).2
      have hb := (hsound _ (lookupCell_mem cm b cb hlkb) j hjlb).2
      exact hab (ha.symm.trans hb)

/-- C1 (amended): with a current cell map for the source array and a cell
size at least every scaled smoothing length involved, each of the two
cited implementations returns exactly the rows j with d < hi or d < hj
(hi, hj the radius_scale-scaled smoothing lengths), each row exactly
once — where d is the full 3-d distance for NNPS.get_nearest_particles
(nbrTest) and the planar z = 0 distance for
ParallelManager.get_nearest_particles (pm_nbrTest, whose code builds xi
and xj with z = 0). -/
theorem get_nearest_particles_exact_both (pas : List PArray) (src_index dst_index : ℕ)
    (radius_scale cell_size : ℚ) (cm : CellMap) (d_idx : ℕ)
    (hcs : 0 < cell_size)
    (hcover : ∀ j < (pas.getD src_index default).x.length,
      j ∈ lindOf (lookupCell cm
        (find_cell_id (binPoint (pas.getD src_index default) j) cell_size)) src_index)
    (hsound : ∀ p ∈ cm, ∀ j ∈ p.2.lindices.getD src_index [],
      j < (pas.getD src_index default).x.length ∧
      find_cell_id (binPoint (pas.getD src_index default) j) cell_size = p.1)
    (hnodup : ∀ p ∈ cm, (p.2.lindices.getD src_index []).Nodup)
    (hhs : ∀ j < (pas.getD src_index default).x.length,
      radius_scale * rd (pas.getD src_index default).h j ≤ cell_size)
    (hhd : radius_scale * rd (pas.getD dst_index default).h d_idx ≤ cell_size) :
    ((∀ j, j ∈ get_nearest_particles pas src_index dst_index radius_scale cell_size cm d_idx
      ↔ j < (pas.getD src_index default).x.length ∧
        nbrTest (pas.getD src_index default) radius_scale
          (fullPoint (pas.getD dst_index default) d_idx)
          (radius_scale * rd (pas.getD dst_index default).h d_idx) j = true) ∧
     (get_nearest_particles pas src_index dst_index radius_scale cell_size cm d_idx).Nodup) ∧
    ((∀ j, j ∈ pm_get_nearest_particles pas src_index dst_index radius_scale cell_size cm d_idx
      ↔ j < (pas.getD src_index default).x.length ∧
        pm_nbrTest (pas.getD src_index default) radius_scale
          (binPoint (pas.getD dst_index default) d_idx)
          (radius_scale * rd (pas.getD dst_index default).h d_idx) j = true) ∧
     (pm_get_nearest_particles pas src_index dst_index radius_scale cell_size cm d_idx).Nodup) :=
  ⟨get_nearest_particles_exact pas src_index dst_index radius_scale cell_size cm d_idx
      hcs hcover hsound hnodup hhs hhd,
   pm_get_nearest_particles_exact pas src_index dst_index radius_scale cell_size cm d_idx
      hcs hcover hsound hnodup hhs hhd⟩

theorem get_nearest_particles_exact_both_witness :
    ((∀ j, j ∈ get_nearest_particles [scenarioPA] 0 0 2 1 scenarioCM 0
      ↔ j < (([scenarioPA] : List PArray).getD 0 default).x.length ∧
        nbrTest (([scenarioPA] : List PArray).getD 0 default) 2
          (fullPoint (([scenarioPA] : List PArray).getD 0 default) 0)
          (2 * rd (([scenarioPA] : List PArray).getD 0 default).h 0) j = true) ∧
     (get_nearest_particles [scenarioPA] 0 0 2 1 scenarioCM 0).Nodup) ∧
    ((∀ j, j ∈ pm_get_nearest_particles [scenarioPA] 0 0 2 1 scenarioCM 0
      ↔ j < (([scenarioPA] : List PArray).getD 0 default).x.length ∧
        pm_nbrTest (([scenarioPA] : List PArray).getD 0 default) 2
          (binPoint (([scenarioPA] : List PArray).getD 0 default) 0)
          (2 * rd (([scenarioPA] : List PArray).getD 0 default).h 0) j = true) ∧
     (pm_get_nearest_particles [scenarioPA] 0 0 2 1 scenarioCM 0).Nodup) :=
  get_nearest_particles_exact_both [scenarioPA] 0 0 2 1 scenarioCM 0
    (by norm_num)
    (by
      intro j hj
      have hj4 : j < 4 := by simpa [scenarioPA] using hj
      interval_cases j <;>
        norm_num [scenarioCM_eq, lookupCell, lindOf, find_cell_id, binPoint,
          real_to_int, rd, scenarioPA, c00, c10, c01, mkCell])
    (by
      rw [scenarioCM_eq]
      intro p hp j hj
      rcases List.mem_cons.1 hp with rfl | hp
      · simp at hj
        rcases hj with rfl | rfl <;>
          refine ⟨by norm_num [scenarioPA], ?_⟩ <;>
          norm_num [find_cell_id, binPoint, real_to_int, rd, scenarioPA, c00]
      · rcases List.mem_cons.1 hp with rfl | hp
        · simp at hj
          subst hj
          refine ⟨by norm_num [scenarioPA], ?_⟩
          norm_num [find_cell_id, binPoint, real_to_int, rd, scenarioPA, c10]
        · rcases List.mem_cons.1 hp with rfl | hp
          · simp at hj
            subst hj
            refine ⟨by norm_num [scenarioPA], ?_⟩
            norm_num [find_cell_id, binPoint, real_to_int, rd, scenarioPA, c01]
          · simp at hp)
    (by
      rw [scenarioCM_eq]
      intro p hp
      rcases List.mem_cons.1 hp with rfl | hp
      · simp
      · rcases List.mem_cons.1 hp with rfl | hp
        · simp
        · rcases List.mem_cons.1 hp with rfl | hp
          · simp
          · simp at hp)
    (by
      intro j hj
      have hj4 : j < 4 := by simpa [scenarioPA] using hj
      interval_cases j <;> norm_num [rd, scenarioPA])
    (by norm_num [rd, scenarioPA])

end PySPH
